import Mathlib

/-!
Shallow embedding, over the real numbers, of the math kernel in
`src/cube/my_math.h` (C++ namespace `lib`) of the 3D-Cube repository.

Modelling conventions:
  * `f32` values are modelled as real numbers; hardware sqrt / sin / cos /
    tan become `Real.sqrt`, `Real.sin`, `Real.cos`, `Real.tan`, and the
    source constant `PI32` becomes `Real.pi`.
  * The C cast `(s32)x` (truncation toward zero) is modelled by `truncS32`.
  * SIMD shuffles and lane-wise arithmetic are translated lane by lane.
  * `Mat4` is column-major exactly as in the source: source `e[c][r]`
    (column `c`, row `r`) is field `c<c>` component number `r`, with the
    component order `x, y, z, w` of the column vector `columns[c]`.
  * `Vec2::refract_fast` executes `__debugbreak()` and never produces a
    value; it is modelled as an `Option`-valued function returning `none`.
-/

namespace Lib

noncomputable section

/-- C cast `(s32)x`: truncation toward zero. -/
def truncS32 (x : ℝ) : ℤ := if 0 ≤ x then ⌊x⌋ else ⌈x⌉

/-- Source `lib::mod_pi` (lines 38–53): add `PI32`, unsigned floating
remainder by `2*PI32` (quotient through the `(s32)` cast), subtract `PI32`,
and restore the sign when the shifted angle was negative. -/
def mod_pi (angle : ℝ) : ℝ :=
  let pi32_2 : ℝ := 2 * Real.pi
  let angle2 : ℝ := angle + Real.pi
  let f_t1 : ℝ := |angle2| - pi32_2 * ((truncS32 (|angle2| / pi32_2) : ℤ) : ℝ)
  let f_t2 : ℝ := f_t1 - Real.pi
  if angle2 < 0 then -f_t2 else f_t2

/-- Source `lib::Vec2`: two `f32` components. -/
@[ext] structure Vec2 where
  x : ℝ
  y : ℝ

/-- Source `lib::Vec3`: three `f32` components. -/
@[ext] structure Vec3 where
  x : ℝ
  y : ℝ
  z : ℝ

/-- Source `lib::Vec4`: four `f32` components (one SIMD register). -/
@[ext] structure Vec4 where
  x : ℝ
  y : ℝ
  z : ℝ
  w : ℝ

/-- Source `dot(Vec2, Vec2)`. -/
def Vec2.dot (a b : Vec2) : ℝ := a.x * b.x + a.y * b.y

/-- Source `length_vec(Vec2)`. -/
def Vec2.length_vec (a : Vec2) : ℝ := Real.sqrt (a.x * a.x + a.y * a.y)

/-- Source `normalize(Vec2)` (lines 239–251): zero-initialised result,
overwritten by `a * (1/length)` only when the length is non-zero. -/
def Vec2.normalize (a : Vec2) : Vec2 :=
  if Vec2.length_vec a = 0 then ⟨0, 0⟩
  else ⟨a.x * (1 / Vec2.length_vec a), a.y * (1 / Vec2.length_vec a)⟩

/-- Source `refract_fast(Vec2, Vec2, f32)` (lines 291–297): the body is
only `__debugbreak()`; no value is ever computed or returned, so the model
returns `none` on every input. -/
def Vec2.refract_fast (_a _b : Vec2) (_ratio : ℝ) : Option Vec2 := none

/-- Source `operator-(Vec3, Vec3)`. -/
def Vec3.sub (a b : Vec3) : Vec3 := ⟨a.x - b.x, a.y - b.y, a.z - b.z⟩

/-- Source `operator+(Vec3, Vec3)`. -/
def Vec3.add (a b : Vec3) : Vec3 := ⟨a.x + b.x, a.y + b.y, a.z + b.z⟩

/-- Source `operator*(f32, Vec3)` (also covers `Vec3 * f32`, which
delegates to it). -/
def Vec3.smul (t : ℝ) (b : Vec3) : Vec3 := ⟨t * b.x, t * b.y, t * b.z⟩

/-- Source `operator/(Vec3, f32)`: `(1.0f / t) * b`. -/
def Vec3.divScalar (b : Vec3) (t : ℝ) : Vec3 := Vec3.smul (1 / t) b

/-- Source `dot(Vec3, Vec3)`. -/
def Vec3.dot (a b : Vec3) : ℝ := a.x * b.x + a.y * b.y + a.z * b.z

/-- Source `length_vec(Vec3)`. -/
def Vec3.length_vec (a : Vec3) : ℝ :=
  Real.sqrt (a.x * a.x + a.y * a.y + a.z * a.z)

/-- Source `normalize(Vec3)` (lines 425–436): zero-initialised result,
overwritten by `a * (1/length)` only when the length is non-zero. -/
def Vec3.normalize (a : Vec3) : Vec3 :=
  if Vec3.length_vec a = 0 then ⟨0, 0, 0⟩
  else ⟨a.x * (1 / Vec3.length_vec a), a.y * (1 / Vec3.length_vec a),
        a.z * (1 / Vec3.length_vec a)⟩

/-- Source `cross(Vec3, Vec3)`. -/
def Vec3.cross (a b : Vec3) : Vec3 :=
  ⟨a.y * b.z - a.z * b.y, a.z * b.x - a.x * b.z, a.x * b.y - a.y * b.x⟩

/-- Source union alias `Vec4::xyz`. -/
def Vec4.xyz (v : Vec4) : Vec3 := ⟨v.x, v.y, v.z⟩

/-- Source aggregate `Vec4{ Vec3, f32 }` used by `inverse` and
`adjugate_trans`. -/
def Vec4.mk3 (v : Vec3) (w : ℝ) : Vec4 := ⟨v.x, v.y, v.z, w⟩

/-- Source `operator+(Vec4, Vec4)` (`_mm_add_ps`). -/
def Vec4.add (a b : Vec4) : Vec4 := ⟨a.x + b.x, a.y + b.y, a.z + b.z, a.w + b.w⟩

/-- Source `operator-(Vec4, Vec4)` (`_mm_sub_ps`). -/
def Vec4.sub (a b : Vec4) : Vec4 := ⟨a.x - b.x, a.y - b.y, a.z - b.z, a.w - b.w⟩

/-- Source `operator*(Vec4, Vec4)` (`_mm_mul_ps`, Hadamard). -/
def Vec4.hmul (a b : Vec4) : Vec4 := ⟨a.x * b.x, a.y * b.y, a.z * b.z, a.w * b.w⟩

/-- Source `operator*(f32, Vec4)` (broadcast then `_mm_mul_ps`). -/
def Vec4.smul (t : ℝ) (b : Vec4) : Vec4 := ⟨t * b.x, t * b.y, t * b.z, t * b.w⟩

/-- Source `dot(Vec4, Vec4)`. -/
def Vec4.dot (a b : Vec4) : ℝ := a.x * b.x + a.y * b.y + a.z * b.z + a.w * b.w

/-- Source `length_vec(Vec4)`: `sqrt(dot(a, a))`. -/
def Vec4.length_vec (a : Vec4) : ℝ := Real.sqrt (Vec4.dot a a)

/-- Source `normalize(Vec4)` (lines 618–630): zero-initialised result,
overwritten by `a * (1/length)` only when the length is non-zero. -/
def Vec4.normalize (a : Vec4) : Vec4 :=
  if Vec4.length_vec a = 0 then ⟨0, 0, 0, 0⟩
  else Vec4.smul (1 / Vec4.length_vec a) a

/-- Source `cross(Vec4, Vec4)` (lines 639–648), shuffle sequence translated
lane by lane: `tmp0 = a.(y,z,x,w)`, `tmp1 = b.(z,x,y,w)`, `tmp2 = tmp0*b`,
`tmp3 = tmp0*tmp1`, `tmp4 = tmp2.(y,z,x,w)`, result `tmp3 - tmp4`. -/
def Vec4.cross (a b : Vec4) : Vec4 :=
  let tmp0 : Vec4 := ⟨a.y, a.z, a.x, a.w⟩
  let tmp1 : Vec4 := ⟨b.z, b.x, b.y, b.w⟩
  let tmp2 : Vec4 := Vec4.hmul tmp0 b
  let tmp3 : Vec4 := Vec4.hmul tmp0 tmp1
  let tmp4 : Vec4 := ⟨tmp2.y, tmp2.z, tmp2.x, tmp2.w⟩
  Vec4.sub tmp3 tmp4

/-- Source `lib::Mat4`: column-major 4×4 matrix; field `cN` is the source
`columns[N]` / `vecs[N]`, so source `e[c][r]` is component `r` (in the
order x, y, z, w) of field `c<c>`. -/
@[ext] structure Mat4 where
  c0 : Vec4
  c1 : Vec4
  c2 : Vec4
  c3 : Vec4

/-- Source `linear_combination(Mat4, __m128)` (lines 762–772): sum of the
four columns, each scaled by the matching component of `b`. -/
def linear_combination (a : Mat4) (b : Vec4) : Vec4 :=
  Vec4.add
    (Vec4.add
      (Vec4.add (Vec4.smul b.x a.c0) (Vec4.smul b.y a.c1))
      (Vec4.smul b.z a.c2))
    (Vec4.smul b.w a.c3)

/-- Source `operator*(Mat4, Vec4)` (lines 774–777). -/
def Mat4.mulVec (a : Mat4) (b : Vec4) : Vec4 := linear_combination a b

/-- Source `operator*(Mat4, Mat4)` (lines 779–789). -/
def Mat4.mulM (a b : Mat4) : Mat4 :=
  ⟨linear_combination a b.c0, linear_combination a b.c1,
   linear_combination a b.c2, linear_combination a b.c3⟩

/-- Source `operator*(f32, Mat4)` (lines 791–801). -/
def Mat4.smulM (t : ℝ) (b : Mat4) : Mat4 :=
  ⟨Vec4.smul t b.c0, Vec4.smul t b.c1, Vec4.smul t b.c2, Vec4.smul t b.c3⟩

/-- Source `transpose(Mat4)` (`_MM_TRANSPOSE4_PS` on the four columns). -/
def Mat4.transpose (a : Mat4) : Mat4 :=
  ⟨⟨a.c0.x, a.c1.x, a.c2.x, a.c3.x⟩,
   ⟨a.c0.y, a.c1.y, a.c2.y, a.c3.y⟩,
   ⟨a.c0.z, a.c1.z, a.c2.z, a.c3.z⟩,
   ⟨a.c0.w, a.c1.w, a.c2.w, a.c3.w⟩⟩

/-- Source `create_diagonal_matrix(val)` (lines 842–853): `val` at
`e[i][i]`, zero elsewhere. -/
def create_diagonal_matrix (val : ℝ) : Mat4 :=
  ⟨⟨val, 0, 0, 0⟩, ⟨0, val, 0, 0⟩, ⟨0, 0, val, 0⟩, ⟨0, 0, 0, val⟩⟩

/-- Source `create_rotation_z(angle)` (lines 935–955): identity with
`e[0][0..2]`, `e[1][0..2]`, `e[2][0..2]` overwritten; `e[0][1] = sin_theta`
and `e[1][0] = -sin_theta`, columns 3 and the `w` rows stay identity. -/
def create_rotation_z (angle : ℝ) : Mat4 :=
  let out := create_diagonal_matrix 1
  let sin_theta := Real.sin angle
  let cos_theta := Real.cos angle
  { out with
    c0 := ⟨cos_theta, sin_theta, 0, out.c0.w⟩
    c1 := ⟨-sin_theta, cos_theta, 0, out.c1.w⟩
    c2 := ⟨0, 0, 1, out.c2.w⟩ }

/-- Source `create_look_at(eye, target, up)` (lines 957–986):
`forward = normalize(eye - target)`, `right = normalize(cross(up, forward))`,
`upward = cross(forward, right)`, rows 0–2 hold right/upward/forward, and
column 3 holds `-dot(axis, eye)` per axis with `e[3][3] = 1`. -/
def create_look_at (eye target up : Vec3) : Mat4 :=
  let forward := Vec3.normalize (Vec3.sub eye target)
  let right := Vec3.normalize (Vec3.cross up forward)
  let upward := Vec3.cross forward right
  ⟨⟨right.x, upward.x, forward.x, 0⟩,
   ⟨right.y, upward.y, forward.y, 0⟩,
   ⟨right.z, upward.z, forward.z, 0⟩,
   ⟨-(Vec3.dot right eye), -(Vec3.dot upward eye), -(Vec3.dot forward eye), 1⟩⟩

/-- Source `create_perspective(fov, aspect, near, far)` (lines 1024–1039):
zero matrix with `e[0][0] = x_scale`, `e[1][1] = y_scale`, `e[2][3] = -1`,
`e[2][2] = far/(near-far)`, `e[3][2] = near*far/(near-far)`. -/
def create_perspective (fov aspect near far : ℝ) : Mat4 :=
  let y_scale := 1 / Real.tan (fov / 2)
  let x_scale := y_scale / aspect
  ⟨⟨x_scale, 0, 0, 0⟩,
   ⟨0, y_scale, 0, 0⟩,
   ⟨0, 0, far / (near - far), -1⟩,
   ⟨0, 0, near * far / (near - far), 0⟩⟩

/-- Source `det(Mat4)` (lines 1041–1052): the cofactor-pair formula
`dot(c01, v) + dot(c23, u)`. -/
def Mat4.det (a : Mat4) : ℝ :=
  let c01 := Vec3.cross a.c0.xyz a.c1.xyz
  let c23 := Vec3.cross a.c2.xyz a.c3.xyz
  let u := Vec3.sub (Vec3.smul a.c1.w a.c0.xyz) (Vec3.smul a.c0.w a.c1.xyz)
  let v := Vec3.sub (Vec3.smul a.c3.w a.c2.xyz) (Vec3.smul a.c2.w a.c3.xyz)
  Vec3.dot c01 v + Vec3.dot c23 u

/-- Body of source `inverse(Mat4)` (lines 1055–1076) from the point where
`inv_det` has been computed: scale `c01`, `c23`, `u`, `v` by `inv_det`,
assemble the four rows, and transpose. -/
def Mat4.invAux (a : Mat4) (inv_det : ℝ) : Mat4 :=
  let c01 := Vec3.cross a.c0.xyz a.c1.xyz
  let c23 := Vec3.cross a.c2.xyz a.c3.xyz
  let u := Vec3.sub (Vec3.smul a.c1.w a.c0.xyz) (Vec3.smul a.c0.w a.c1.xyz)
  let v := Vec3.sub (Vec3.smul a.c3.w a.c2.xyz) (Vec3.smul a.c2.w a.c3.xyz)
  let c01s := Vec3.smul inv_det c01
  let c23s := Vec3.smul inv_det c23
  let us := Vec3.smul inv_det u
  let vs := Vec3.smul inv_det v
  Mat4.transpose
    ⟨Vec4.mk3 (Vec3.add (Vec3.cross a.c1.xyz vs) (Vec3.smul a.c1.w c23s))
        (-(Vec3.dot a.c1.xyz c23s)),
     Vec4.mk3 (Vec3.sub (Vec3.cross vs a.c0.xyz) (Vec3.smul a.c0.w c23s))
        (Vec3.dot a.c0.xyz c23s),
     Vec4.mk3 (Vec3.add (Vec3.cross a.c3.xyz us) (Vec3.smul a.c3.w c01s))
        (-(Vec3.dot a.c3.xyz c01s)),
     Vec4.mk3 (Vec3.sub (Vec3.cross us a.c2.xyz) (Vec3.smul a.c2.w c01s))
        (Vec3.dot a.c2.xyz c01s)⟩

/-- Source `inverse(Mat4)` (lines 1055–1076):
`inv_det = 1.0f / (dot(c01, v) + dot(c23, u))`, then the `invAux` body. -/
def Mat4.inverse (a : Mat4) : Mat4 :=
  let c01 := Vec3.cross a.c0.xyz a.c1.xyz
  let c23 := Vec3.cross a.c2.xyz a.c3.xyz
  let u := Vec3.sub (Vec3.smul a.c1.w a.c0.xyz) (Vec3.smul a.c0.w a.c1.xyz)
  let v := Vec3.sub (Vec3.smul a.c3.w a.c2.xyz) (Vec3.smul a.c2.w a.c3.xyz)
  Mat4.invAux a (1 / (Vec3.dot c01 v + Vec3.dot c23 u))

/-- Source `trans_linear_combination(Mat4, __m128)` (lines 1079–1088):
`linear_combination` with the last multiply-add (column 3 times `b.w`)
skipped. -/
def trans_linear_combination (a : Mat4) (b : Vec4) : Vec4 :=
  Vec4.add
    (Vec4.add (Vec4.smul b.x a.c0) (Vec4.smul b.y a.c1))
    (Vec4.smul b.z a.c2)

/-- Source `mul_trans(Mat4, Mat4)` (lines 1130–1140): cut linear
combination for the first three columns, full one for column 3. -/
def mul_trans (a b : Mat4) : Mat4 :=
  ⟨trans_linear_combination a b.c0, trans_linear_combination a b.c1,
   trans_linear_combination a b.c2, linear_combination a b.c3⟩

/-- Source `mul_trans_point(Mat4, Vec3)` (lines 1116–1127): the point
`(p.x, p.y, p.z, 1)`, with the multiplication by the constant 1 replaced by
adding column 3 directly; returns the x, y, z components. -/
def mul_trans_point (a : Mat4) (p : Vec3) : Vec3 :=
  let out :=
    Vec4.add
      (Vec4.add
        (Vec4.add (Vec4.smul p.x a.c0) (Vec4.smul p.y a.c1))
        (Vec4.smul p.z a.c2))
      a.c3
  ⟨out.x, out.y, out.z⟩

/-- Modelled from the spec (§3): the affine invariant required by the
`*_trans` fast paths — the bottom row (row 3, i.e. the `w` component of
every column) is exactly `[0, 0, 0, 1]` and the upper-left 3×3 block is
shear-free, formalised as pairwise orthogonality of its three columns. -/
def Mat4.affine (m : Mat4) : Prop :=
  m.c0.w = 0 ∧ m.c1.w = 0 ∧ m.c2.w = 0 ∧ m.c3.w = 1 ∧
  Vec3.dot m.c0.xyz m.c1.xyz = 0 ∧ Vec3.dot m.c0.xyz m.c2.xyz = 0 ∧
  Vec3.dot m.c1.xyz m.c2.xyz = 0

/-- Component of a column vector by row index, in the source order
x, y, z, w. -/
def Vec4.nth (v : Vec4) : Fin 4 → ℝ
  | 0 => v.x
  | 1 => v.y
  | 2 => v.z
  | 3 => v.w

/-- Column of the matrix by index, as in source `columns[i]`. -/
def Mat4.col (m : Mat4) : Fin 4 → Vec4
  | 0 => m.c0
  | 1 => m.c1
  | 2 => m.c2
  | 3 => m.c3

/-- Bridge to the Mathlib matrix: entry `(r, c)` is source `e[c][r]`. -/
def Mat4.toMatrix (m : Mat4) : Matrix (Fin 4) (Fin 4) ℝ :=
  Matrix.of fun r c => (m.col c).nth r

end

/-! ## Theorems -/

/-- C7: `create_perspective(fov, aspect, near, far)` returns a matrix whose
only non-zero elements are `e[0][0] = (1/tan(fov/2))/aspect`,
`e[1][1] = 1/tan(fov/2)`, `e[2][3] = -1`, `e[2][2] = far/(near-far)` and
`e[3][2] = (near*far)/(near-far)`; every other entry is zero. -/
theorem create_perspective_entries (fov aspect near far : ℝ) :
    create_perspective fov aspect near far =
      ⟨⟨(1 / Real.tan (fov / 2)) / aspect, 0, 0, 0⟩,
       ⟨0, 1 / Real.tan (fov / 2), 0, 0⟩,
       ⟨0, 0, far / (near - far), -1⟩,
       ⟨0, 0, near * far / (near - far), 0⟩⟩ := rfl

/-- C8: `refract_fast` never returns a computed value: its body is only a
`__debugbreak()` trap, so the model yields `none` on every input. -/
theorem refract_fast_returns_no_value (a b : Vec2) (ratio : ℝ) :
    Vec2.refract_fast a b ratio = none := rfl

/-- C9: for every `Mat4` `a` (no affine precondition) and every `Vec3` `p`,
`mul_trans_point(a, p)` equals the x, y, z components of the general
product `a * Vec4(p.x, p.y, p.z, 1)`: the fast path only skips the
multiplication by the constant 1. -/
theorem mul_trans_point_eq_general (a : Mat4) (p : Vec3) :
    mul_trans_point a p = (Mat4.mulVec a ⟨p.x, p.y, p.z, 1⟩).xyz := by
  ext <;>
    simp [mul_trans_point, Mat4.mulVec, linear_combination, Vec4.add,
      Vec4.smul, Vec4.xyz]

/-- C10: for all `Vec4` inputs `a` and `b`, the SIMD shuffle sequence of
`cross(Vec4, Vec4)` computes `a.w*b.w - a.w*b.w` in the fourth lane, so the
result's `w` component is exactly 0. -/
theorem cross_vec4_w_zero (a b : Vec4) : (Vec4.cross a b).w = 0 := by
  simp [Vec4.cross, Vec4.hmul, Vec4.sub]

/-- C1 counterexample: at `θ = π/2`, multiplying `create_rotation_z(θ)` by
the vector `(1, 0, 0, 0)` does not yield `(cos θ, -sin θ, 0, 0)` — the
y component of the product is `sin θ = 1`, not `-sin θ = -1`. -/
theorem create_rotation_z_x_image_sign_counterexample :
    Mat4.mulVec (create_rotation_z (Real.pi / 2)) ⟨1, 0, 0, 0⟩ ≠
      ⟨Real.cos (Real.pi / 2), -Real.sin (Real.pi / 2), 0, 0⟩ := by
  intro h
  have hy := congrArg Vec4.y h
  simp [Mat4.mulVec, linear_combination, create_rotation_z,
    create_diagonal_matrix, Vec4.add, Vec4.smul, Real.sin_pi_div_two] at hy
  norm_num at hy

/-- C1 (amended): for every angle `θ`, multiplying `create_rotation_z(θ)`
by the vector `(1, 0, 0, 0)` yields `(cos θ, sin θ, 0, 0)` (the y component
is `+sin θ`, not `-sin θ`), and the stored matrix has
`e[0][1] = sin_theta` and `e[1][0] = -sin_theta`. -/
theorem create_rotation_z_x_image (angle : ℝ) :
    Mat4.mulVec (create_rotation_z angle) ⟨1, 0, 0, 0⟩ =
      ⟨Real.cos angle, Real.sin angle, 0, 0⟩ ∧
    (create_rotation_z angle).c0.y = Real.sin angle ∧
    (create_rotation_z angle).c1.x = -Real.sin angle := by
  refine ⟨?_, rfl, rfl⟩
  ext <;>
    simp [Mat4.mulVec, linear_combination, create_rotation_z,
      create_diagonal_matrix, Vec4.add, Vec4.smul]

/-- Helper: the unsigned remainder step of `mod_pi` lands in `[0, 2π)`. -/
lemma remainder_step_bounds (t : ℝ) (ht : 0 ≤ t) :
    0 ≤ t - 2 * Real.pi * ((truncS32 (t / (2 * Real.pi)) : ℤ) : ℝ) ∧
    t - 2 * Real.pi * ((truncS32 (t / (2 * Real.pi)) : ℤ) : ℝ) < 2 * Real.pi := by
  have h2 : (0 : ℝ) < 2 * Real.pi := by positivity
  have hq : 0 ≤ t / (2 * Real.pi) := div_nonneg ht h2.le
  have htr : truncS32 (t / (2 * Real.pi)) = ⌊t / (2 * Real.pi)⌋ := if_pos hq
  rw [htr]
  have hrw : t - 2 * Real.pi * ((⌊t / (2 * Real.pi)⌋ : ℤ) : ℝ) =
      2 * Real.pi * Int.fract (t / (2 * Real.pi)) := by
    rw [Int.fract]
    field_simp
  rw [hrw]
  constructor
  · exact mul_nonneg h2.le (Int.fract_nonneg _)
  · calc 2 * Real.pi * Int.fract (t / (2 * Real.pi)) <
        2 * Real.pi * 1 := by
          exact mul_lt_mul_of_pos_left (Int.fract_lt_one _) h2
    _ = 2 * Real.pi := mul_one _

/-- Helper: bounds for `mod_pi` by cases on the sign of `angle + π`. -/
lemma mod_pi_bounds (a : ℝ) :
    (-Real.pi ≤ mod_pi a ∧ mod_pi a ≤ Real.pi) ∧
    (0 ≤ a + Real.pi → mod_pi a < Real.pi) := by
  have hb := remainder_step_bounds |a + Real.pi| (abs_nonneg _)
  unfold mod_pi
  dsimp only
  rcases lt_or_le (a + Real.pi) 0 with hneg | hpos
  · rw [if_pos hneg]
    refine ⟨⟨by linarith [hb.2], by linarith [hb.1]⟩, ?_⟩
    intro habs
    exact absurd habs (not_le.mpr hneg)
  · rw [if_neg (not_lt.mpr hpos)]
    exact ⟨⟨by linarith [hb.1], by linarith [hb.2]⟩, fun _ => by linarith [hb.2]⟩

/-- Helper: exact value of `mod_pi` at `3π`. -/
lemma mod_pi_at_three_pi : mod_pi (3 * Real.pi) = -Real.pi := by
  have hpi := Real.pi_pos
  have h2 : (2 : ℝ) * Real.pi ≠ 0 := by positivity
  unfold mod_pi
  dsimp only
  rw [if_neg (by push_neg; positivity)]
  have h4 : 3 * Real.pi + Real.pi = 4 * Real.pi := by ring
  rw [h4, abs_of_nonneg (by positivity)]
  have hdiv : 4 * Real.pi / (2 * Real.pi) = 2 := by
    field_simp
    ring
  rw [hdiv]
  have htr : truncS32 (2 : ℝ) = 2 := by
    unfold truncS32
    rw [if_pos (by norm_num)]
    norm_num
  rw [htr]
  push_cast
  ring

/-- Helper: exact value of `mod_pi` at `-3π`. -/
lemma mod_pi_at_neg_three_pi : mod_pi (-(3 * Real.pi)) = Real.pi := by
  have hpi := Real.pi_pos
  have h2 : (2 : ℝ) * Real.pi ≠ 0 := by positivity
  unfold mod_pi
  dsimp only
  have hsum : -(3 * Real.pi) + Real.pi = -(2 * Real.pi) := by ring
  rw [hsum, if_pos (by simpa using hpi), abs_neg, abs_of_nonneg (by positivity)]
  rw [div_self h2]
  have htr : truncS32 (1 : ℝ) = 1 := by
    unfold truncS32
    rw [if_pos (by norm_num)]
    norm_num
  rw [htr]
  push_cast
  ring

/-- C2 counterexample: in exact arithmetic `mod_pi(-3π) = π`, which lies
outside the claimed half-open interval `[-π, π)` and is not approximately
`-π`; and `mod_pi(3π) = -π`, a full `2π` away from the claimed value `π`. -/
theorem mod_pi_boundary_counterexample :
    mod_pi (-(3 * Real.pi)) = Real.pi ∧
    ¬ mod_pi (-(3 * Real.pi)) < Real.pi ∧
    mod_pi (3 * Real.pi) = -Real.pi ∧
    |mod_pi (3 * Real.pi) - Real.pi| = 2 * Real.pi := by
  refine ⟨mod_pi_at_neg_three_pi, ?_, mod_pi_at_three_pi, ?_⟩
  · rw [mod_pi_at_neg_three_pi]
    exact lt_irrefl _
  · rw [mod_pi_at_three_pi]
    have hpi := Real.pi_pos
    rw [abs_of_nonpos (by linarith)]
    ring

/-- C2 (amended): `mod_pi` maps every angle into the closed interval
`[-π, π]`; the result is below `π` whenever `angle + π` is non-negative
(the endpoint `π` can only appear on the negated branch); and in exact
arithmetic `mod_pi(3π) = -π` while `mod_pi(-3π) = π`. -/
theorem mod_pi_range_and_boundary :
    (∀ a : ℝ, -Real.pi ≤ mod_pi a ∧ mod_pi a ≤ Real.pi) ∧
    (∀ a : ℝ, 0 ≤ a + Real.pi → mod_pi a < Real.pi) ∧
    mod_pi (3 * Real.pi) = -Real.pi ∧
    mod_pi (-(3 * Real.pi)) = Real.pi :=
  ⟨fun a => (mod_pi_bounds a).1, fun a ha => (mod_pi_bounds a).2 ha,
   mod_pi_at_three_pi, mod_pi_at_neg_three_pi⟩

/-- Witness for C2: the hypothesis `0 ≤ a + π` is discharged at `a = 0`. -/
theorem mod_pi_range_and_boundary_witness : mod_pi 0 < Real.pi :=
  mod_pi_range_and_boundary.2.1 0 (by positivity)

/-- Helper: a non-zero `Vec2` has positive squared length. -/
lemma vec2_sq_pos (v : Vec2) (h : v ≠ ⟨0, 0⟩) : 0 < v.x * v.x + v.y * v.y := by
  by_contra hle
  push_neg at hle
  have hx : v.x = 0 := by nlinarith [mul_self_nonneg v.x, mul_self_nonneg v.y]
  have hy : v.y = 0 := by nlinarith [mul_self_nonneg v.x, mul_self_nonneg v.y]
  exact h (Vec2.ext hx hy)

/-- Helper: a non-zero `Vec3` has positive squared length. -/
lemma vec3_sq_pos (v : Vec3) (h : v ≠ ⟨0, 0, 0⟩) :
    0 < v.x * v.x + v.y * v.y + v.z * v.z := by
  by_contra hle
  push_neg at hle
  have hx : v.x = 0 := by
    nlinarith [mul_self_nonneg v.x, mul_self_nonneg v.y, mul_self_nonneg v.z]
  have hy : v.y = 0 := by
    nlinarith [mul_self_nonneg v.x, mul_self_nonneg v.y, mul_self_nonneg v.z]
  have hz : v.z = 0 := by
    nlinarith [mul_self_nonneg v.x, mul_self_nonneg v.y, mul_self_nonneg v.z]
  exact h (Vec3.ext hx hy hz)

/-- Helper: a non-zero `Vec4` has positive squared length. -/
lemma vec4_sq_pos (v : Vec4) (h : v ≠ ⟨0, 0, 0, 0⟩) :
    0 < v.x * v.x + v.y * v.y + v.z * v.z + v.w * v.w := by
  by_contra hle
  push_neg at hle
  have hx : v.x = 0 := by
    nlinarith [mul_self_nonneg v.x, mul_self_nonneg v.y, mul_self_nonneg v.z,
      mul_self_nonneg v.w]
  have hy : v.y = 0 := by
    nlinarith [mul_self_nonneg v.x, mul_self_nonneg v.y, mul_self_nonneg v.z,
      mul_self_nonneg v.w]
  have hz : v.z = 0 := by
    nlinarith [mul_self_nonneg v.x, mul_self_nonneg v.y, mul_self_nonneg v.z,
      mul_self_nonneg v.w]
  have hw : v.w = 0 := by
    nlinarith [mul_self_nonneg v.x, mul_self_nonneg v.y, mul_self_nonneg v.z,
      mul_self_nonneg v.w]
  exact h (Vec4.ext hx hy hz hw)

/-- Helper: scaling a positive sum of squares by the squared reciprocal of
its square root gives square root 1. -/
lemma sqrt_scaled_sum_eq_one (s : ℝ) (hs : 0 < s) :
    Real.sqrt (s * (1 / Real.sqrt s * (1 / Real.sqrt s))) = 1 := by
  have hss : Real.sqrt s * Real.sqrt s = s := Real.mul_self_sqrt hs.le
  have hne : Real.sqrt s ≠ 0 := ne_of_gt (Real.sqrt_pos.mpr hs)
  have hval : s * (1 / Real.sqrt s * (1 / Real.sqrt s)) = 1 := by
    field_simp
  rw [hval, Real.sqrt_one]

/-- Helper: `normalize(Vec2)` has exact length 1 on non-zero input. -/
lemma normalize_vec2_length (v : Vec2) (h : v ≠ ⟨0, 0⟩) :
    Vec2.length_vec (Vec2.normalize v) = 1 := by
  have hs := vec2_sq_pos v h
  have hLne : Vec2.length_vec v ≠ 0 := ne_of_gt (Real.sqrt_pos.mpr hs)
  rw [Vec2.normalize, if_neg hLne]
  show Real.sqrt
      (v.x * (1 / Vec2.length_vec v) * (v.x * (1 / Vec2.length_vec v)) +
       v.y * (1 / Vec2.length_vec v) * (v.y * (1 / Vec2.length_vec v))) = 1
  rw [Vec2.length_vec]
  rw [show v.x * (1 / Real.sqrt (v.x * v.x + v.y * v.y)) *
        (v.x * (1 / Real.sqrt (v.x * v.x + v.y * v.y))) +
      v.y * (1 / Real.sqrt (v.x * v.x + v.y * v.y)) *
        (v.y * (1 / Real.sqrt (v.x * v.x + v.y * v.y))) =
      (v.x * v.x + v.y * v.y) *
        (1 / Real.sqrt (v.x * v.x + v.y * v.y) *
          (1 / Real.sqrt (v.x * v.x + v.y * v.y))) from by ring]
  exact sqrt_scaled_sum_eq_one _ hs

/-- Helper: `normalize(Vec3)` has exact length 1 on non-zero input. -/
lemma normalize_vec3_length (v : Vec3) (h : v ≠ ⟨0, 0, 0⟩) :
    Vec3.length_vec (Vec3.normalize v) = 1 := by
  have hs := vec3_sq_pos v h
  have hLne : Vec3.length_vec v ≠ 0 := ne_of_gt (Real.sqrt_pos.mpr hs)
  rw [Vec3.normalize, if_neg hLne]
  show Real.sqrt
      (v.x * (1 / Vec3.length_vec v) * (v.x * (1 / Vec3.length_vec v)) +
       v.y * (1 / Vec3.length_vec v) * (v.y * (1 / Vec3.length_vec v)) +
       v.z * (1 / Vec3.length_vec v) * (v.z * (1 / Vec3.length_vec v))) = 1
  rw [Vec3.length_vec]
  rw [show v.x * (1 / Real.sqrt (v.x * v.x + v.y * v.y + v.z * v.z)) *
        (v.x * (1 / Real.sqrt (v.x * v.x + v.y * v.y + v.z * v.z))) +
      v.y * (1 / Real.sqrt (v.x * v.x + v.y * v.y + v.z * v.z)) *
        (v.y * (1 / Real.sqrt (v.x * v.x + v.y * v.y + v.z * v.z))) +
      v.z * (1 / Real.sqrt (v.x * v.x + v.y * v.y + v.z * v.z)) *
        (v.z * (1 / Real.sqrt (v.x * v.x + v.y * v.y + v.z * v.z))) =
      (v.x * v.x + v.y * v.y + v.z * v.z) *
        (1 / Real.sqrt (v.x * v.x + v.y * v.y + v.z * v.z) *
          (1 / Real.sqrt (v.x * v.x + v.y * v.y + v.z * v.z))) from by ring]
  exact sqrt_scaled_sum_eq_one _ hs

/-- Helper: `normalize(Vec4)` has exact length 1 on non-zero input. -/
lemma normalize_vec4_length (v : Vec4) (h : v ≠ ⟨0, 0, 0, 0⟩) :
    Vec4.length_vec (Vec4.normalize v) = 1 := by
  have hs := vec4_sq_pos v h
  have hLne : Vec4.length_vec v ≠ 0 := ne_of_gt (Real.sqrt_pos.mpr hs)
  rw [Vec4.normalize, if_neg hLne]
  show Real.sqrt (Vec4.dot (Vec4.smul (1 / Vec4.length_vec v) v)
      (Vec4.smul (1 / Vec4.length_vec v) v)) = 1
  rw [Vec4.dot, Vec4.smul]
  show Real.sqrt
      (1 / Vec4.length_vec v * v.x * (1 / Vec4.length_vec v * v.x) +
       1 / Vec4.length_vec v * v.y * (1 / Vec4.length_vec v * v.y) +
       1 / Vec4.length_vec v * v.z * (1 / Vec4.length_vec v * v.z) +
       1 / Vec4.length_vec v * v.w * (1 / Vec4.length_vec v * v.w)) = 1
  rw [Vec4.length_vec, Vec4.dot]
  rw [show 1 / Real.sqrt (v.x * v.x + v.y * v.y + v.z * v.z + v.w * v.w) * v.x *
        (1 / Real.sqrt (v.x * v.x + v.y * v.y + v.z * v.z + v.w * v.w) * v.x) +
      1 / Real.sqrt (v.x * v.x + v.y * v.y + v.z * v.z + v.w * v.w) * v.y *
        (1 / Real.sqrt (v.x * v.x + v.y * v.y + v.z * v.z + v.w * v.w) * v.y) +
      1 / Real.sqrt (v.x * v.x + v.y * v.y + v.z * v.z + v.w * v.w) * v.z *
        (1 / Real.sqrt (v.x * v.x + v.y * v.y + v.z * v.z + v.w * v.w) * v.z) +
      1 / Real.sqrt (v.x * v.x + v.y * v.y + v.z * v.z + v.w * v.w) * v.w *
        (1 / Real.sqrt (v.x * v.x + v.y * v.y + v.z * v.z + v.w * v.w) * v.w) =
      (v.x * v.x + v.y * v.y + v.z * v.z + v.w * v.w) *
        (1 / Real.sqrt (v.x * v.x + v.y * v.y + v.z * v.z + v.w * v.w) *
          (1 / Real.sqrt (v.x * v.x + v.y * v.y + v.z * v.z + v.w * v.w))) from
    by ring]
  exact sqrt_scaled_sum_eq_one _ hs

/-- C6: for each vector type, `normalize(v)` has length exactly 1 (hence
within any small tolerance) when `v` is not the zero vector, and
`normalize` of the zero vector is the zero vector, taken without any
division: the source guards on `length != 0` and returns the
zero-initialised output otherwise. -/
theorem normalize_unit_length_or_zero :
    (∀ v : Vec2, v ≠ ⟨0, 0⟩ → Vec2.length_vec (Vec2.normalize v) = 1) ∧
    Vec2.normalize ⟨0, 0⟩ = ⟨0, 0⟩ ∧
    (∀ v : Vec3, v ≠ ⟨0, 0, 0⟩ → Vec3.length_vec (Vec3.normalize v) = 1) ∧
    Vec3.normalize ⟨0, 0, 0⟩ = ⟨0, 0, 0⟩ ∧
    (∀ v : Vec4, v ≠ ⟨0, 0, 0, 0⟩ → Vec4.length_vec (Vec4.normalize v) = 1) ∧
    Vec4.normalize ⟨0, 0, 0, 0⟩ = ⟨0, 0, 0, 0⟩ := by
  refine ⟨normalize_vec2_length, ?_, normalize_vec3_length, ?_,
    normalize_vec4_length, ?_⟩
  · rw [Vec2.normalize, if_pos]
    show Real.sqrt ((0 : ℝ) * 0 + 0 * 0) = 0
    rw [show (0 : ℝ) * 0 + 0 * 0 = 0 from by ring, Real.sqrt_zero]
  · rw [Vec3.normalize, if_pos]
    show Real.sqrt ((0 : ℝ) * 0 + 0 * 0 + 0 * 0) = 0
    rw [show (0 : ℝ) * 0 + 0 * 0 + 0 * 0 = 0 from by ring, Real.sqrt_zero]
  · rw [Vec4.normalize, if_pos]
    show Real.sqrt ((0 : ℝ) * 0 + 0 * 0 + 0 * 0 + 0 * 0) = 0
    rw [show (0 : ℝ) * 0 + 0 * 0 + 0 * 0 + 0 * 0 = 0 from by ring,
      Real.sqrt_zero]

/-- Witness for C6: the non-zero hypotheses are discharged at the concrete
vectors `(3, 4)`, `(1, 2, 2)` and `(2, 0, 0, 0)`. -/
theorem normalize_unit_length_or_zero_witness :
    Vec2.length_vec (Vec2.normalize ⟨3, 4⟩) = 1 ∧
    Vec3.length_vec (Vec3.normalize ⟨1, 2, 2⟩) = 1 ∧
    Vec4.length_vec (Vec4.normalize ⟨2, 0, 0, 0⟩) = 1 :=
  ⟨normalize_unit_length_or_zero.1 ⟨3, 4⟩
      (by simp [Vec2.mk.injEq]),
   normalize_unit_length_or_zero.2.2.1 ⟨1, 2, 2⟩
      (by simp [Vec3.mk.injEq]),
   normalize_unit_length_or_zero.2.2.2.2.1 ⟨2, 0, 0, 0⟩
      (by simp [Vec4.mk.injEq])⟩

/-- C5: for matrices `A`, `B` that both satisfy the affine invariant
(bottom row exactly `[0,0,0,1]`, shear-free upper 3×3 block),
`mul_trans(A, B)` equals the general product `A * B` exactly: the skipped
multiply-add is `b.cI.w * column3`, and the affine bottom row makes
`b.cI.w = 0` for the first three columns. -/
theorem mul_trans_eq_general_product (a b : Mat4)
    (ha : Mat4.affine a) (hb : Mat4.affine b) :
    mul_trans a b = Mat4.mulM a b := by
  obtain ⟨hb0, hb1, hb2, -, -⟩ := hb
  ext <;>
    simp [mul_trans, Mat4.mulM, trans_linear_combination, linear_combination,
      Vec4.add, Vec4.smul, hb0, hb1, hb2]

/-- Witness for C5: both affine hypotheses are discharged at the identity
matrix `create_diagonal_matrix 1`. -/
theorem mul_trans_eq_general_product_witness :
    mul_trans (create_diagonal_matrix 1) (create_diagonal_matrix 1) =
      Mat4.mulM (create_diagonal_matrix 1) (create_diagonal_matrix 1) :=
  mul_trans_eq_general_product _ _
    (by simp [Mat4.affine, create_diagonal_matrix, Vec3.dot, Vec4.xyz])
    (by simp [Mat4.affine, create_diagonal_matrix, Vec3.dot, Vec4.xyz])

/-- C4: `create_look_at(eye, target, up)` builds its basis as
`forward = normalize(eye - target)`, `right = normalize(cross(up, forward))`,
`upward = cross(forward, right)`; the third row (`e[0][2]`, `e[1][2]`,
`e[2][2]`) stores the forward axis, the translation terms (`e[3][0..2]`)
store `-dot(right, eye)`, `-dot(upward, eye)`, `-dot(forward, eye)`; and
for `eye = (3,0,3)`, `target = 0`, `up = (0,1,0)` the third row equals
`(3,0,3) / |(3,0,3)|`. -/
theorem create_look_at_basis_rows :
    (∀ eye target up : Vec3,
      (create_look_at eye target up).c0.z =
        (Vec3.normalize (Vec3.sub eye target)).x ∧
      (create_look_at eye target up).c1.z =
        (Vec3.normalize (Vec3.sub eye target)).y ∧
      (create_look_at eye target up).c2.z =
        (Vec3.normalize (Vec3.sub eye target)).z ∧
      (create_look_at eye target up).c3.x =
        -(Vec3.dot
            (Vec3.normalize (Vec3.cross up (Vec3.normalize (Vec3.sub eye target))))
            eye) ∧
      (create_look_at eye target up).c3.y =
        -(Vec3.dot
            (Vec3.cross (Vec3.normalize (Vec3.sub eye target))
              (Vec3.normalize
                (Vec3.cross up (Vec3.normalize (Vec3.sub eye target)))))
            eye) ∧
      (create_look_at eye target up).c3.z =
        -(Vec3.dot (Vec3.normalize (Vec3.sub eye target)) eye)) ∧
    (⟨(create_look_at ⟨3, 0, 3⟩ ⟨0, 0, 0⟩ ⟨0, 1, 0⟩).c0.z,
      (create_look_at ⟨3, 0, 3⟩ ⟨0, 0, 0⟩ ⟨0, 1, 0⟩).c1.z,
      (create_look_at ⟨3, 0, 3⟩ ⟨0, 0, 0⟩ ⟨0, 1, 0⟩).c2.z⟩ : Vec3) =
      Vec3.divScalar ⟨3, 0, 3⟩ (Vec3.length_vec ⟨3, 0, 3⟩) := by
  constructor
  · exact fun eye target up => ⟨rfl, rfl, rfl, rfl, rfl, rfl⟩
  · show (⟨(Vec3.normalize (Vec3.sub ⟨3, 0, 3⟩ ⟨0, 0, 0⟩)).x,
        (Vec3.normalize (Vec3.sub ⟨3, 0, 3⟩ ⟨0, 0, 0⟩)).y,
        (Vec3.normalize (Vec3.sub ⟨3, 0, 3⟩ ⟨0, 0, 0⟩)).z⟩ : Vec3) =
      Vec3.divScalar ⟨3, 0, 3⟩ (Vec3.length_vec ⟨3, 0, 3⟩)
    have hsub : Vec3.sub ⟨3, 0, 3⟩ ⟨0, 0, 0⟩ = (⟨3, 0, 3⟩ : Vec3) := by
      rw [Vec3.sub]
      norm_num
    rw [hsub]
    have hLne : Vec3.length_vec (⟨3, 0, 3⟩ : Vec3) ≠ 0 := by
      rw [Vec3.length_vec]
      rw [Real.sqrt_ne_zero']
      norm_num
    rw [Vec3.normalize, if_neg hLne, Vec3.divScalar, Vec3.smul]
    show (⟨(3 : ℝ) * (1 / Vec3.length_vec ⟨3, 0, 3⟩),
        (0 : ℝ) * (1 / Vec3.length_vec ⟨3, 0, 3⟩),
        (3 : ℝ) * (1 / Vec3.length_vec ⟨3, 0, 3⟩)⟩ : Vec3) =
      ⟨1 / Vec3.length_vec ⟨3, 0, 3⟩ * 3, 1 / Vec3.length_vec ⟨3, 0, 3⟩ * 0,
        1 / Vec3.length_vec ⟨3, 0, 3⟩ * 3⟩
    rw [Vec3.mk.injEq]
    refine ⟨by ring, by ring, by ring⟩

/-- Helper: `inverse` is `invAux` at `inv_det = 1 / det`. -/
lemma inverse_eq_invAux (a : Mat4) :
    Mat4.inverse a = Mat4.invAux a (1 / Mat4.det a) := rfl

/-- Helper: the cofactor-pair inverse body satisfies
`A * invAux(A, t) = (t * det A) • I` as a polynomial identity. -/
lemma mulM_invAux (a : Mat4) (t : ℝ) :
    Mat4.mulM a (Mat4.invAux a t) =
      Mat4.smulM (t * Mat4.det a) (create_diagonal_matrix 1) := by
  ext <;>
    (simp only [Mat4.mulM, Mat4.invAux, Mat4.smulM, Mat4.transpose, Mat4.det,
      linear_combination, Vec4.add, Vec4.smul, Vec4.mk3, Vec3.cross, Vec3.dot,
      Vec3.add, Vec3.sub, Vec3.smul, Vec4.xyz, create_diagonal_matrix]
     ring)

/-- Helper: scaling the identity by 1 is the identity. -/
lemma smulM_one_id :
    Mat4.smulM 1 (create_diagonal_matrix 1) = create_diagonal_matrix 1 := by
  ext <;> simp [Mat4.smulM, Vec4.smul, create_diagonal_matrix]

/-- Helper: cofactor expansion of a 4×4 Mathlib determinant along row 0. -/
lemma det_fin_four_expand {R : Type} [CommRing R] (M : Matrix (Fin 4) (Fin 4) R) :
    M.det = M 0 0 * (M 1 1 * (M 2 2 * M 3 3 - M 2 3 * M 3 2)
      - M 1 2 * (M 2 1 * M 3 3 - M 2 3 * M 3 1)
      + M 1 3 * (M 2 1 * M 3 2 - M 2 2 * M 3 1))
    - M 0 1 * (M 1 0 * (M 2 2 * M 3 3 - M 2 3 * M 3 2)
      - M 1 2 * (M 2 0 * M 3 3 - M 2 3 * M 3 0)
      + M 1 3 * (M 2 0 * M 3 2 - M 2 2 * M 3 0))
    + M 0 2 * (M 1 0 * (M 2 1 * M 3 3 - M 2 3 * M 3 1)
      - M 1 1 * (M 2 0 * M 3 3 - M 2 3 * M 3 0)
      + M 1 3 * (M 2 0 * M 3 1 - M 2 1 * M 3 0))
    - M 0 3 * (M 1 0 * (M 2 1 * M 3 2 - M 2 2 * M 3 1)
      - M 1 1 * (M 2 0 * M 3 2 - M 2 2 * M 3 0)
      + M 1 2 * (M 2 0 * M 3 1 - M 2 1 * M 3 0)) := by
  rw [Matrix.det_succ_row_zero, Fin.sum_univ_four]
  simp only [Matrix.det_fin_three, Matrix.submatrix_apply]
  simp only [show (Fin.succ (0 : Fin 3) : Fin 4) = 1 by decide,
    show (Fin.succ (1 : Fin 3) : Fin 4) = 2 by decide,
    show (Fin.succ (2 : Fin 3) : Fin 4) = 3 by decide,
    show Fin.succAbove (0 : Fin 4) (0 : Fin 3) = 1 by decide,
    show Fin.succAbove (0 : Fin 4) (1 : Fin 3) = 2 by decide,
    show Fin.succAbove (0 : Fin 4) (2 : Fin 3) = 3 by decide,
    show Fin.succAbove (1 : Fin 4) (0 : Fin 3) = 0 by decide,
    show Fin.succAbove (1 : Fin 4) (1 : Fin 3) = 2 by decide,
    show Fin.succAbove (1 : Fin 4) (2 : Fin 3) = 3 by decide,
    show Fin.succAbove (2 : Fin 4) (0 : Fin 3) = 0 by decide,
    show Fin.succAbove (2 : Fin 4) (1 : Fin 3) = 1 by decide,
    show Fin.succAbove (2 : Fin 4) (2 : Fin 3) = 3 by decide,
    show Fin.succAbove (3 : Fin 4) (0 : Fin 3) = 0 by decide,
    show Fin.succAbove (3 : Fin 4) (1 : Fin 3) = 1 by decide,
    show Fin.succAbove (3 : Fin 4) (2 : Fin 3) = 2 by decide,
    show ((0 : Fin 4) : ℕ) = 0 from rfl, show ((1 : Fin 4) : ℕ) = 1 from rfl,
    show ((2 : Fin 4) : ℕ) = 2 from rfl, show ((3 : Fin 4) : ℕ) = 3 from rfl]
  ring

/-- Helper: the source `det` is the determinant of the bridged matrix. -/
lemma det_eq_toMatrix_det (a : Mat4) : Mat4.det a = (Mat4.toMatrix a).det := by
  rw [det_fin_four_expand]
  simp only [Mat4.toMatrix, Matrix.of_apply, Mat4.col, Vec4.nth, Mat4.det,
    Vec3.cross, Vec3.dot, Vec3.sub, Vec3.smul, Vec4.xyz]
  ring

/-- Helper: the bridge turns the source matrix product into the Mathlib
matrix product. -/
lemma toMatrix_mulM (a b : Mat4) :
    Mat4.toMatrix (Mat4.mulM a b) = Mat4.toMatrix a * Mat4.toMatrix b := by
  apply Matrix.ext
  intro r c
  fin_cases r <;> fin_cases c <;>
    (simp [Mat4.toMatrix, Matrix.mul_apply, Fin.sum_univ_four, Mat4.col,
      Vec4.nth, Mat4.mulM, linear_combination, Vec4.add, Vec4.smul]
     ring)

/-- Helper: the bridge sends the identity to the identity. -/
lemma toMatrix_id : Mat4.toMatrix (create_diagonal_matrix 1) = 1 := by
  apply Matrix.ext
  intro r c
  fin_cases r <;> fin_cases c <;>
    simp [Mat4.toMatrix, Mat4.col, Vec4.nth, create_diagonal_matrix,
      Matrix.one_apply]

/-- C3: for every 4×4 matrix `A` with non-zero determinant,
`A * inverse(A)` equals the identity matrix exactly (hence approximates it
within any per-element tolerance), and `det(A) * det(inverse(A)) = 1`
exactly (hence is approximately 1). -/
theorem mul_inverse_identity_det_product (a : Mat4) (h : Mat4.det a ≠ 0) :
    Mat4.mulM a (Mat4.inverse a) = create_diagonal_matrix 1 ∧
    Mat4.det a * Mat4.det (Mat4.inverse a) = 1 := by
  have hmain : Mat4.mulM a (Mat4.inverse a) = create_diagonal_matrix 1 := by
    rw [inverse_eq_invAux, mulM_invAux, one_div, inv_mul_cancel₀ h]
    exact smulM_one_id
  refine ⟨hmain, ?_⟩
  rw [det_eq_toMatrix_det a, det_eq_toMatrix_det (Mat4.inverse a),
    ← Matrix.det_mul, ← toMatrix_mulM, hmain, toMatrix_id, Matrix.det_one]

/-- Witness for C3: the non-singularity hypothesis is discharged at the
identity matrix, whose `det` evaluates to 1. -/
theorem mul_inverse_identity_det_product_witness :
    Mat4.mulM (create_diagonal_matrix 1) (Mat4.inverse (create_diagonal_matrix 1)) =
      create_diagonal_matrix 1 ∧
    Mat4.det (create_diagonal_matrix 1) *
      Mat4.det (Mat4.inverse (create_diagonal_matrix 1)) = 1 :=
  mul_inverse_identity_det_product (create_diagonal_matrix 1)
    (by
      simp only [Mat4.det, create_diagonal_matrix, Vec3.cross, Vec3.dot,
        Vec3.sub, Vec3.smul, Vec4.xyz]
      norm_num)

end Lib
